import Mathlib

/-!
Verification of the typed command abstraction of the `slave` Keithley K2182
driver (`src/slave/keithley/k2182.py`).

The repository ships only the instrument-specific command catalogue
(`k2182.py`); the generic codec/descriptor machinery it instantiates
(`slave.types`: Boolean, Float, Integer, Mapping, Set; `slave.core`: Command)
is part of the same project but not present under `src/`, so those parts are
modelled from the specification, as noted on each definition.  The concrete
command declarations (phrases, bounds, mappings) are transcribed from
`k2182.py` itself.

Rationals (`ℚ`) stand in for Python floats: every IEEE double is a rational
whose denominator divides a power of ten, so the decimal-representable
rationals (`IsDecimal`) cover all float values the driver can see.
-/

/-! ### Characters and digit strings -/

/-- Numeric value of a digit character, `'0' ↦ 0`, …, `'9' ↦ 9`. -/
def charVal (c : Char) : ℕ := c.toNat - 48

/-- Recogniser for the ten ASCII digit characters. -/
def isDigitC (c : Char) : Bool :=
  c = '0' || c = '1' || c = '2' || c = '3' || c = '4' ||
  c = '5' || c = '6' || c = '7' || c = '8' || c = '9'

/-- Value of a digit string read most-significant first. -/
def digitsVal (l : List Char) : ℕ := l.foldl (fun a c => 10 * a + charVal c) 0

/-- The digit character for `m` when `m < 10` (and `'9'` otherwise). -/
def digitChar : ℕ → Char
  | 0 => '0' | 1 => '1' | 2 => '2' | 3 => '3' | 4 => '4'
  | 5 => '5' | 6 => '6' | 7 => '7' | 8 => '8' | _ => '9'

/-- Fuel-driven base-10 printer for naturals; `fuel > n` suffices. -/
def natDigitsAux : ℕ → ℕ → List Char
  | 0, _ => []
  | fuel + 1, n =>
    if n < 10 then [digitChar n]
    else natDigitsAux fuel (n / 10) ++ [digitChar (n % 10)]

/-- Decimal digit string of a natural number, most significant digit first. -/
def natDigits (n : ℕ) : List Char := natDigitsAux (n + 1) n

/-- Decimal digit string of an integer, with a leading minus sign if negative. -/
def intDigits (i : ℤ) : List Char :=
  if i < 0 then '-' :: natDigits i.natAbs else natDigits i.natAbs

/-- Left-pad a digit string with zeros to width `w`. -/
def padZeros (w : ℕ) (l : List Char) : List Char :=
  List.replicate (w - l.length) '0' ++ l

/-! ### Parsing numeric wire text -/

/-- Parse a nonempty all-digit string to a natural number. -/
def parseNat? (l : List Char) : Option ℕ :=
  if !l.isEmpty && l.all isDigitC then some (digitsVal l) else none

/-- Parse an optionally signed digit string to an integer (used for float
exponents, where the instrument may send forms such as `+02`). -/
def parseInt? (l : List Char) : Option ℤ :=
  match l with
  | [] => none
  | c :: cs =>
    if c = '-' then (parseNat? cs).map (fun n => -(n : ℤ))
    else if c = '+' then (parseNat? cs).map (fun n => (n : ℤ))
    else (parseNat? (c :: cs)).map (fun n => (n : ℤ))

/-- Canonical-form test for an unsigned decimal numeral: nonempty, all
digits, and no leading zero except for the single numeral `0`. -/
def canonNat (l : List Char) : Bool :=
  !l.isEmpty && l.all isDigitC && (l.head? ≠ some '0' || l.length = 1)

/-- Parse an integer written in canonical decimal form (an optional minus
sign, no leading zeros, no plus sign); other spellings are rejected. -/
def parseCanonInt? (l : List Char) : Option ℤ :=
  match l with
  | [] => none
  | c :: cs =>
    if c = '-' then
      if canonNat cs && decide (digitsVal cs ≠ 0) then some (-(digitsVal cs : ℤ))
      else none
    else if canonNat (c :: cs) then some ((digitsVal (c :: cs) : ℤ)) else none

/-- Split a character list at the first exponent marker `e`/`E`. -/
def splitExp : List Char → List Char × Option (List Char)
  | [] => ([], none)
  | c :: cs =>
    if c = 'e' ∨ c = 'E' then ([], some cs)
    else
      let r := splitExp cs
      (c :: r.1, r.2)

/-- Split a character list at the first decimal point. -/
def splitDot : List Char → List Char × Option (List Char)
  | [] => ([], none)
  | c :: cs =>
    if c = '.' then ([], some cs)
    else
      let r := splitDot cs
      (c :: r.1, r.2)

/-- The rational `m · 10^e`, built from kernel-reducible `Rat.divInt`. -/
def qOfMantExp (m : ℤ) (e : ℤ) : ℚ :=
  if 0 ≤ e then Rat.divInt (m * (10 : ℤ) ^ e.toNat) 1
  else Rat.divInt m ((10 : ℤ) ^ (-e).toNat)

/-- Parse the mantissa part `digits[.digits]` into a pair `(m, s)` whose
value is `m / 10^s`. -/
def parseMant (l : List Char) : Option (ℤ × ℕ) :=
  let p := splitDot l
  match p.2 with
  | none => (parseNat? p.1).map (fun n => ((n : ℤ), 0))
  | some f =>
    if f.isEmpty then (parseNat? p.1).map (fun n => ((n : ℤ), 0))
    else
      match parseNat? p.1, parseNat? f with
      | some n, some m => some (((n * 10 ^ f.length + m : ℕ) : ℤ), f.length)
      | _, _ => none

/-- Parse an unsigned float `mantissa[(e|E)exponent]`. -/
def parseUF (l : List Char) : Option ℚ :=
  let p := splitExp l
  let ex : Option ℤ := match p.2 with | none => some 0 | some el => parseInt? el
  match parseMant p.1, ex with
  | some (m, s), some e => some (qOfMantExp m (e - (s : ℤ)))
  | _, _ => none

/-- Parse an optionally signed float in the instrument's numeric syntax
(fixed or scientific notation, as in `1.5E+02`). -/
def parseFloat? (l : List Char) : Option ℚ :=
  match l with
  | [] => none
  | c :: cs =>
    if c = '-' then (parseUF cs).map (fun q => -q)
    else if c = '+' then parseUF cs
    else parseUF (c :: cs)

/-! ### Formatting decimal rationals -/

/-- Fuel-driven search for the least `k ≥ start` with `d ∣ 10^k`. -/
def findExpAux (d : ℕ) : ℕ → ℕ → ℕ
  | 0, k => k
  | fuel + 1, k => if d ∣ 10 ^ k then k else findExpAux d fuel (k + 1)

/-- Least exponent `k` with `d ∣ 10^k`, for denominators of decimal
rationals (the search is exhaustive below `d + 1`, which suffices). -/
def decExp (d : ℕ) : ℕ := findExpAux d (d + 1) 0

/-- A rational is decimal-representable when its reduced denominator divides
a power of ten; such rationals are exactly the values finite decimal (hence
also binary floating-point) literals can denote. -/
def IsDecimal (q : ℚ) : Prop := q.den ∣ 10 ^ decExp q.den

instance (q : ℚ) : Decidable (IsDecimal q) := by unfold IsDecimal; infer_instance

/-- Digit string of `n / 10^k` with exactly `k` digits after the point. -/
def formatDecPos (n k : ℕ) : List Char :=
  natDigits (n / 10 ^ k) ++ '.' :: padZeros k (natDigits (n % 10 ^ k))

/-- Format a decimal rational in fixed-point notation with at least one
fractional digit, e.g. `150 ↦ "150.0"`, `-6/5 ↦ "-1.2"`. -/
def formatDec (q : ℚ) : List Char :=
  let k := max (decExp q.den) 1
  let n := q.num.natAbs * (10 ^ k / q.den)
  if q.num < 0 then '-' :: formatDecPos n k else formatDecPos n k

/-! ### The value codec and command descriptor model -/

/-- Decidable equality for `Except` results, so that concrete command
exchanges can be checked by evaluation. -/
instance {ε α : Type} [DecidableEq ε] [DecidableEq α] : DecidableEq (Except ε α) := fun x y =>
  match x, y with
  | .ok a, .ok b =>
    if h : a = b then .isTrue (by rw [h]) else .isFalse (by simp [h])
  | .ok _, .error _ => .isFalse (by simp)
  | .error _, .ok _ => .isFalse (by simp)
  | .error e, .error f =>
    if h : e = f then .isTrue (by rw [h]) else .isFalse (by simp [h])

/-- Modelled from the spec: the error taxonomy of §7 (TransportError is the
connection's own failure mode and never arises in the pure model). -/
inductive Err
  | parseErr
  | rangeErr
  | unknownSymbol
  | unknownToken
  | invalidValue
  | unsupported
deriving Repr, DecidableEq

/-- Native values exchanged with the codecs: booleans, floats (as decimal
rationals), integers, and enumerated symbols. -/
inductive Val
  | bool (b : Bool)
  | num (q : ℚ)
  | int (i : ℤ)
  | str (s : String)
deriving Repr, DecidableEq

/-- Modelled from the spec: the Value Type variants of `slave.types` used by
`k2182.py` (Boolean, bounded Float, bounded Integer, Mapping, Set), §3. -/
inductive Codec
  | Boolean
  | Float (min max : Option ℚ)
  | Integer (min max : Option ℤ)
  | Mapping (pairs : List (String × String))
  | Set (allowed : List String)
deriving Repr, DecidableEq

/-- Bounds test for the float codecs; an absent bound never restricts. -/
def inBoundsQ (min max : Option ℚ) (q : ℚ) : Bool :=
  (match min with | none => true | some a => decide (a ≤ q)) &&
  (match max with | none => true | some b => decide (q ≤ b))

/-- Bounds test for the integer codecs; an absent bound never restricts. -/
def inBoundsZ (min max : Option ℤ) (i : ℤ) : Bool :=
  (match min with | none => true | some a => decide (a ≤ i)) &&
  (match max with | none => true | some b => decide (i ≤ b))

/-- Modelled from the spec: `decode(raw) -> Value` of §4.1.  Boolean maps the
wire tokens 1/0, the numeric codecs parse the instrument's numeric literal
syntax, Mapping looks the wire token up on the value side, Set passes members
of the declared symbol set through unchanged. -/
def Codec.decode : Codec → String → Except Err Val
  | .Boolean, t =>
    if t = "1" then .ok (.bool true)
    else if t = "0" then .ok (.bool false)
    else .error .parseErr
  | .Float _ _, t =>
    match parseFloat? t.data with
    | some q => .ok (.num q)
    | none => .error .parseErr
  | .Integer _ _, t =>
    match parseCanonInt? t.data with
    | some i => .ok (.int i)
    | none => .error .parseErr
  | .Mapping m, t =>
    match m.find? (fun p => p.2 == t) with
    | some p => .ok (.str p.1)
    | none => .error .unknownToken
  | .Set xs, t => if t ∈ xs then .ok (.str t) else .error .invalidValue

/-- Modelled from the spec: `encode(value) -> text` of §4.1.  The numeric
codecs check the declared inclusive bounds first, failing with RangeError;
Mapping looks the symbol up on the key side, failing with UnknownSymbolError;
Set validates membership, failing with InvalidValueError.  A value of the
wrong shape for the codec is malformed. -/
def Codec.encode : Codec → Val → Except Err String
  | .Boolean, .bool b => .ok (if b then "1" else "0")
  | .Float min max, .num q =>
    if inBoundsQ min max q then .ok (String.mk (formatDec q))
    else .error .rangeErr
  | .Integer min max, .int i =>
    if inBoundsZ min max i then .ok (String.mk (intDigits i))
    else .error .rangeErr
  | .Mapping m, .str s =>
    match m.find? (fun p => p.1 == s) with
    | some p => .ok p.2
    | none => .error .unknownSymbol
  | .Set xs, .str s => if s ∈ xs then .ok s else .error .invalidValue
  | _, _ => .error .parseErr

/-- Modelled from the spec: the injected connection capability of §6; `ask`
gives the single-line textual response to a query.  Bare `write` has no
response, so it appears in the model only as a recorded event. -/
structure Connection where
  ask : String → String

/-- One observable exchange with the connection: either a bare command write
or an ask together with the response it received. -/
inductive Event
  | write (cmd : String)
  | ask (cmd : String) (resp : String)
deriving Repr, DecidableEq

/-- Modelled from the spec: the Command Descriptor of §3/§4.2 — an optional
query phrase, an optional write phrase, and one associated Value Type. -/
structure Command where
  queryPhrase : Option String
  writePhrase : Option String
  codec : Codec
deriving Repr, DecidableEq

/-- Modelled from the spec: `read(connection)` of §4.2 — requires a query
phrase (UnsupportedOperationError otherwise), sends it via `ask`, decodes the
reply.  The second component lists the connection exchanges performed. -/
def Command.read (cmd : Command) (conn : Connection) :
    Except Err Val × List Event :=
  match cmd.queryPhrase with
  | none => (.error .unsupported, [])
  | some qp => (cmd.codec.decode (conn.ask qp), [.ask qp (conn.ask qp)])

/-- Modelled from the spec: `write(connection, value)` of §4.2 — requires a
write phrase (UnsupportedOperationError otherwise), encodes the value
(propagating encode failures before anything is sent), then writes the phrase
followed by the encoded argument. -/
def Command.write (cmd : Command) (v : Val) : Except Err Unit × List Event :=
  match cmd.writePhrase with
  | none => (.error .unsupported, [])
  | some wp =>
    match cmd.codec.encode v with
    | .error e => (.error e, [])
    | .ok arg => (.ok (), [.write (wp ++ " " ++ arg)])

/-! ### The K2182 command catalogue, transcribed from `k2182.py` -/

namespace Initiate

/-- The `continuous_mode` command of the `Initiate` layer. -/
def continuous_mode : Command := ⟨some ":INIT:CONT?", some ":INIT:CONT", .Boolean⟩

/-- Calling the `Initiate` layer writes `:INIT` with no response. -/
def call : Unit × List Event := ((), [.write ":INIT"])

end Initiate

namespace Output

/-- The analog output gain, a float between -100e6 and 100e6. -/
def gain : Command :=
  ⟨some "OUTP:GAIN?", some "OUTP:GAIN",
   .Float (some (-100000000)) (some 100000000)⟩

/-- The analog output offset, a float between -1.2 and 1.2. -/
def offset : Command :=
  ⟨some "OUTP:OFFS?", some "OUTP:OFFS",
   .Float (some (Rat.divInt (-12) 10)) (some (Rat.divInt 12 10))⟩

/-- The relative-mode flag of the analog output. -/
def relative : Command := ⟨some "OUTP:REL?", some "OUTP:REL", .Boolean⟩

/-- The analog output state. -/
def state : Command := ⟨some "OUTP:STAT?", some "OUTP:STAT", .Boolean⟩

end Output

namespace Sense

/-- The sense function, a mapping with keys voltage and temperature. -/
def function : Command :=
  ⟨some ":SENS:FUNC?", some ":SENS:FUNC",
   .Mapping [("voltage", "\"VOLT:DC\""), ("temperature", "\"TEMP\"")]⟩

end Sense

namespace Trigger

/-- The auto-delay flag of the trigger layer. -/
def auto_delay : Command := ⟨some ":TRIG:DEL:AUTO?", some ":TRIG:DEL:AUTO", .Boolean⟩

/-- The trigger count, declared as `Float(min=0.)` with no upper bound. -/
def count : Command := ⟨some ":TRIG:COUN?", some ":TRIG:COUN", .Float (some 0) none⟩

/-- The trigger delay, a float between 0 and 999999.999 seconds. -/
def delay : Command :=
  ⟨some ":TRIG:DEL?", some ":TRIG:DEL",
   .Float (some 0) (some (Rat.divInt 999999999 1000))⟩

/-- The trigger source mapping declared in `k2182.py`. -/
def sourcePairs : List (String × String) :=
  [("immediate", "IMM"), ("timer", "TIM"), ("manual", "MAN"),
   ("bus", "BUS"), ("external", "EXT")]

/-- The trigger source command. -/
def source : Command := ⟨some ":TRIG:SOUR?", some ":TRIG:SOUR", .Mapping sourcePairs⟩

/-- The timer interval, a float between 0 and 999999.999 seconds. -/
def timer : Command :=
  ⟨some ":TRIG:TIM?", some ":TRIG:TIM",
   .Float (some 0) (some (Rat.divInt 999999999 1000))⟩

/-- The `signal` method writes `:TRIG:SIGN` with no response and returns
nothing. -/
def signal : Unit × List Event := ((), [.write ":TRIG:SIGN"])

end Trigger

namespace Unit

/-- The temperature unit, one of the symbols C, F, K. -/
def temperature : Command :=
  ⟨some ":UNIT:TEMP?", some ":UNIT:TEMP", .Set ["C", "F", "K"]⟩

end Unit

/-- Model of Python's `float()` conversion applied to a response string, as
used by `K2182.fetch` and `K2182.read`; a malformed string raises. -/
def pyFloat (s : String) : Except Err ℚ :=
  match parseFloat? s.data with
  | some q => .ok q
  | none => .error .parseErr

namespace K2182

/-- The sample count, an integer with valid entries 1 to 1024. -/
def sample_count : Command :=
  ⟨some ":SAMP:COUN?", some ":SAMP:COUN", .Integer (some 1) (some 1024)⟩

/-- Single-shot temperature measurement, a query-only command. -/
def temperature : Command := ⟨some ":MEAS:TEMP?", none, .Float none none⟩

/-- Single-shot voltage measurement, a query-only command. -/
def voltage : Command := ⟨some ":MEAS:VOLT?", none, .Float none none⟩

/-- The `abort` method writes `:ABOR` with no response and returns nothing. -/
def abort : Unit × List Event := ((), [.write ":ABOR"])

/-- The `fetch` method: `float(self.connection.ask(':FETC?'))`. -/
def fetch (conn : Connection) : Except Err ℚ × List Event :=
  (pyFloat (conn.ask ":FETC?"), [.ask ":FETC?" (conn.ask ":FETC?")])

/-- The `read` method: `float(self.connection.ask(':READ?'))`. -/
def read (conn : Connection) : Except Err ℚ × List Event :=
  (pyFloat (conn.ask ":READ?"), [.ask ":READ?" (conn.ask ":READ?")])

end K2182

/-! ### Digit-string lemmas -/

lemma isDigitC_cases {c : Char} (h : isDigitC c = true) :
    c = '0' ∨ c = '1' ∨ c = '2' ∨ c = '3' ∨ c = '4' ∨
    c = '5' ∨ c = '6' ∨ c = '7' ∨ c = '8' ∨ c = '9' := by
  simp only [isDigitC, Bool.or_eq_true, decide_eq_true_eq] at h
  tauto

lemma charVal_digitChar {m : ℕ} (h : m < 10) : charVal (digitChar m) = m := by
  interval_cases m <;> decide

lemma isDigitC_digitChar (m : ℕ) : isDigitC (digitChar m) = true := by
  unfold digitChar
  split <;> decide

lemma digitChar_charVal {c : Char} (h : isDigitC c = true) :
    digitChar (charVal c) = c := by
  rcases isDigitC_cases h with rfl | rfl | rfl | rfl | rfl | rfl | rfl | rfl | rfl | rfl <;>
    decide

lemma charVal_lt_ten {c : Char} (h : isDigitC c = true) : charVal c < 10 := by
  rcases isDigitC_cases h with rfl | rfl | rfl | rfl | rfl | rfl | rfl | rfl | rfl | rfl <;>
    decide

lemma charVal_pos {c : Char} (h : isDigitC c = true) (h0 : c ≠ '0') :
    1 ≤ charVal c := by
  rcases isDigitC_cases h with rfl | rfl | rfl | rfl | rfl | rfl | rfl | rfl | rfl | rfl <;>
    first | (exact absurd rfl h0) | decide

lemma isDigitC_ne {c : Char} (h : isDigitC c = true) :
    c ≠ '.' ∧ c ≠ 'e' ∧ c ≠ 'E' ∧ c ≠ '-' ∧ c ≠ '+' := by
  rcases isDigitC_cases h with rfl | rfl | rfl | rfl | rfl | rfl | rfl | rfl | rfl | rfl <;>
    exact ⟨by decide, by decide, by decide, by decide, by decide⟩

lemma digitsVal_nil : digitsVal [] = 0 := rfl

lemma foldl_digits (l : List Char) (a : ℕ) :
    l.foldl (fun a c => 10 * a + charVal c) a =
      a * 10 ^ l.length + digitsVal l := by
  induction l generalizing a with
  | nil => simp [digitsVal]
  | cons c cs ih =>
    simp only [digitsVal, List.foldl_cons, List.length_cons]
    rw [ih (10 * a + charVal c), ih (10 * 0 + charVal c)]
    ring

lemma digitsVal_append (l₁ l₂ : List Char) :
    digitsVal (l₁ ++ l₂) = digitsVal l₁ * 10 ^ l₂.length + digitsVal l₂ := by
  unfold digitsVal
  rw [List.foldl_append]
  rw [show (l₁.foldl (fun a c => 10 * a + charVal c) 0) = digitsVal l₁ from rfl,
    foldl_digits l₂ (digitsVal l₁)]
  rfl

lemma digitsVal_singleton (c : Char) : digitsVal [c] = charVal c := by
  simp [digitsVal]

lemma natDigitsAux_spec :
    ∀ fuel n, n < fuel →
      digitsVal (natDigitsAux fuel n) = n ∧
      natDigitsAux fuel n ≠ [] ∧
      (∀ c ∈ natDigitsAux fuel n, isDigitC c = true) := by
  intro fuel
  induction fuel with
  | zero => omega
  | succ f ih =>
    intro n hn
    by_cases h10 : n < 10
    · simp only [natDigitsAux, if_pos h10]
      refine ⟨?_, by simp, ?_⟩
      · rw [digitsVal_singleton, charVal_digitChar h10]
      · intro c hc
        rcases List.mem_singleton.mp hc with rfl
        exact isDigitC_digitChar n
    · have hrec : n / 10 < f := by omega
      obtain ⟨hval, hne, hdig⟩ := ih (n / 10) hrec
      simp only [natDigitsAux, if_neg h10]
      refine ⟨?_, by simp, ?_⟩
      · rw [digitsVal_append, hval, List.length_singleton, digitsVal_singleton,
          charVal_digitChar (Nat.mod_lt n (by omega))]
        omega
      · intro c hc
        rcases List.mem_append.mp hc with h | h
        · exact hdig c h
        · rcases List.mem_singleton.mp h with rfl
          exact isDigitC_digitChar _

lemma digitsVal_natDigits (n : ℕ) : digitsVal (natDigits n) = n :=
  (natDigitsAux_spec (n + 1) n (by omega)).1

lemma natDigits_ne_nil (n : ℕ) : natDigits n ≠ [] :=
  (natDigitsAux_spec (n + 1) n (by omega)).2.1

lemma natDigits_all_digits (n : ℕ) : ∀ c ∈ natDigits n, isDigitC c = true :=
  (natDigitsAux_spec (n + 1) n (by omega)).2.2

lemma natDigitsAux_length_le :
    ∀ fuel n k, n < fuel → n < 10 ^ k → 1 ≤ k →
      (natDigitsAux fuel n).length ≤ k := by
  intro fuel
  induction fuel with
  | zero => omega
  | succ f ih =>
    intro n k hn hnk hk
    by_cases h10 : n < 10
    · simp only [natDigitsAux, if_pos h10, List.length_singleton]
      omega
    · have hk2 : 2 ≤ k := by
        by_contra hlt
        have : k = 1 := by omega
        subst this
        simp at hnk
        omega
      have hrec : n / 10 < f := by omega
      have hdiv : n / 10 < 10 ^ (k - 1) := by
        have h1 : n < 10 ^ (k - 1) * 10 := by
          have : 10 ^ (k - 1) * 10 = 10 ^ k := by
            rw [← pow_succ]
            congr 1
            omega
          omega
        omega
      simp only [natDigitsAux, if_neg h10, List.length_append, List.length_singleton]
      have := ih (n / 10) (k - 1) hrec hdiv (by omega)
      omega

lemma natDigits_length_le {n k : ℕ} (hnk : n < 10 ^ k) (hk : 1 ≤ k) :
    (natDigits n).length ≤ k :=
  natDigitsAux_length_le (n + 1) n k (by omega) hnk hk

lemma natDigitsAux_congr :
    ∀ fuel fuel' n, n < fuel → n < fuel' →
      natDigitsAux fuel n = natDigitsAux fuel' n := by
  intro fuel
  induction fuel with
  | zero => omega
  | succ f ih =>
    intro fuel' n hn hn'
    cases fuel' with
    | zero => omega
    | succ f' =>
      by_cases h10 : n < 10
      · simp [natDigitsAux, if_pos h10]
      · have hrec : n / 10 < f := by omega
        have hrec' : n / 10 < f' := by omega
        simp only [natDigitsAux, if_neg h10]
        rw [ih f' (n / 10) hrec hrec']

lemma natDigitsAux_head :
    ∀ fuel n, n < fuel → n ≠ 0 → (natDigitsAux fuel n).head? ≠ some '0' := by
  intro fuel
  induction fuel with
  | zero => omega
  | succ f ih =>
    intro n hn h0
    by_cases h10 : n < 10
    · simp only [natDigitsAux, if_pos h10, List.head?_cons]
      intro hc
      have hdc : digitChar n = '0' := by injection hc
      have : charVal (digitChar n) = n := charVal_digitChar h10
      rw [hdc] at this
      exact h0 (by simpa [charVal] using this.symm)
    · have hrec : n / 10 < f := by omega
      have hne : natDigitsAux f (n / 10) ≠ [] :=
        (natDigitsAux_spec f (n / 10) hrec).2.1
      obtain ⟨d, ds, hds⟩ := List.exists_cons_of_ne_nil hne
      simp only [natDigitsAux, if_neg h10, hds, List.cons_append, List.head?_cons]
      have := ih (n / 10) hrec (by omega)
      rw [hds] at this
      simpa using this

lemma natDigits_head {n : ℕ} (h0 : n ≠ 0) : (natDigits n).head? ≠ some '0' :=
  natDigitsAux_head (n + 1) n (by omega) h0

lemma natDigitsAux_succ (f n : ℕ) :
    natDigitsAux (f + 1) n =
      if n < 10 then [digitChar n]
      else natDigitsAux f (n / 10) ++ [digitChar (n % 10)] := rfl

lemma natDigits_lt_ten {m : ℕ} (h : m < 10) : natDigits m = [digitChar m] := by
  unfold natDigits
  rw [natDigitsAux_succ, if_pos h]

lemma parseNat?_eq_some {l : List Char} (hne : l ≠ [])
    (hd : ∀ c ∈ l, isDigitC c = true) : parseNat? l = some (digitsVal l) := by
  have h1 : l.isEmpty = false := List.isEmpty_eq_false.mpr hne
  have h2 : l.all isDigitC = true := List.all_eq_true.mpr hd
  simp [parseNat?, h1, h2]

lemma parseNat?_natDigits (n : ℕ) : parseNat? (natDigits n) = some n := by
  rw [parseNat?_eq_some (natDigits_ne_nil n) (natDigits_all_digits n),
    digitsVal_natDigits]

lemma digitsVal_replicate_zero (j : ℕ) :
    digitsVal (List.replicate j '0') = 0 := by
  induction j with
  | zero => rfl
  | succ m ih =>
    unfold digitsVal at ih ⊢
    rw [List.replicate_succ, List.foldl_cons]
    simpa [charVal] using ih

lemma digitsVal_padZeros (w : ℕ) (l : List Char) :
    digitsVal (padZeros w l) = digitsVal l := by
  unfold padZeros
  rw [digitsVal_append, digitsVal_replicate_zero, zero_mul, zero_add]

lemma padZeros_length {w : ℕ} {l : List Char} (h : l.length ≤ w) :
    (padZeros w l).length = w := by
  unfold padZeros
  rw [List.length_append, List.length_replicate]
  omega

lemma padZeros_all_digits {w : ℕ} {l : List Char}
    (hd : ∀ c ∈ l, isDigitC c = true) :
    ∀ c ∈ padZeros w l, isDigitC c = true := by
  intro c hc
  rcases List.mem_append.mp hc with h | h
  · rcases List.eq_of_mem_replicate h with rfl
    decide
  · exact hd c h

lemma padZeros_ne_nil {w : ℕ} {l : List Char} (hw : 1 ≤ w) :
    padZeros w l ≠ [] := by
  intro h
  unfold padZeros at h
  rcases List.append_eq_nil.mp h with ⟨h1, h2⟩
  subst h2
  rw [List.replicate_eq_nil_iff] at h1
  simp at h1
  omega

lemma digitsVal_pos {l : List Char} (hne : l ≠ [])
    (hd : ∀ c ∈ l, isDigitC c = true) (hh : l.head? ≠ some '0') :
    digitsVal l ≠ 0 := by
  cases l with
  | nil => exact absurd rfl hne
  | cons c cs =>
    have hc : isDigitC c = true := hd c (by simp)
    have hc0 : c ≠ '0' := by
      intro h
      exact hh (by rw [h]; rfl)
    have h1 : 1 ≤ charVal c := charVal_pos hc hc0
    have h2 : digitsVal (c :: cs) = charVal c * 10 ^ cs.length + digitsVal cs := by
      have := digitsVal_append [c] cs
      simpa [digitsVal_singleton] using this
    have h3 : 0 < 10 ^ cs.length := pow_pos (by norm_num) _
    have h4 : 1 * 10 ^ cs.length ≤ charVal c * 10 ^ cs.length :=
      Nat.mul_le_mul_right _ h1
    omega

lemma natDigits_mul_add {a r : ℕ} (ha : a ≠ 0) (hr : r < 10) :
    natDigits (10 * a + r) = natDigits a ++ [digitChar r] := by
  have h10 : ¬ (10 * a + r < 10) := by omega
  have hdiv : (10 * a + r) / 10 = a := by omega
  have hmod : (10 * a + r) % 10 = r := by omega
  unfold natDigits
  rw [natDigitsAux_succ, if_neg h10, hdiv, hmod,
    natDigitsAux_congr (10 * a + r) (a + 1) a (by omega) (by omega)]

lemma canonNat_natDigits (n : ℕ) : canonNat (natDigits n) = true := by
  by_cases h0 : n = 0
  · subst h0; decide
  · simp only [canonNat, Bool.and_eq_true, Bool.or_eq_true, Bool.not_eq_true',
      decide_eq_true_eq]
    refine ⟨⟨List.isEmpty_eq_false.mpr (natDigits_ne_nil n),
      List.all_eq_true.mpr (natDigits_all_digits n)⟩, Or.inl (natDigits_head h0)⟩

lemma canonNat_parts {l : List Char} (h : canonNat l = true) :
    l ≠ [] ∧ (∀ c ∈ l, isDigitC c = true) ∧
      (l.head? ≠ some '0' ∨ l.length = 1) := by
  simp only [canonNat, Bool.and_eq_true, Bool.or_eq_true, Bool.not_eq_true',
    decide_eq_true_eq] at h
  exact ⟨List.isEmpty_eq_false.mp h.1.1, List.all_eq_true.mp h.1.2, h.2⟩

lemma natDigits_digitsVal :
    ∀ l : List Char, canonNat l = true → natDigits (digitsVal l) = l := by
  intro l
  induction l using List.reverseRecOn with
  | nil => intro h; exact absurd h (by decide)
  | append_singleton l' c ih =>
    intro h
    obtain ⟨-, hdig, hhead⟩ := canonNat_parts h
    have hc : isDigitC c = true := hdig c (by simp)
    cases l' with
    | nil =>
      rw [List.nil_append, digitsVal_singleton,
        natDigits_lt_ten (charVal_lt_ten hc), digitChar_charVal hc]
    | cons d ds =>
      have hh' : (d :: ds).head? ≠ some '0' := by
        rcases hhead with h1 | h1
        · simpa using h1
        · simp at h1
      have hcanon' : canonNat (d :: ds) = true := by
        simp only [canonNat, Bool.and_eq_true, Bool.or_eq_true, Bool.not_eq_true',
          decide_eq_true_eq]
        refine ⟨⟨by simp, List.all_eq_true.mpr ?_⟩, Or.inl hh'⟩
        intro x hx
        exact hdig x (List.mem_append.mpr (Or.inl hx))
      have ha : digitsVal (d :: ds) ≠ 0 :=
        digitsVal_pos (by simp) (fun x hx => hdig x (List.mem_append.mpr (Or.inl hx))) hh'
      have hval : digitsVal ((d :: ds) ++ [c]) =
          10 * digitsVal (d :: ds) + charVal c := by
        rw [digitsVal_append, digitsVal_singleton, List.length_singleton, pow_one]
        ring
      rw [hval, natDigits_mul_add ha (charVal_lt_ten hc), ih hcanon',
        digitChar_charVal hc]

/-! ### Integer text round trip -/

lemma natDigits_cons (n : ℕ) :
    ∃ d ds, natDigits n = d :: ds ∧ isDigitC d = true := by
  obtain ⟨d, ds, hds⟩ := List.exists_cons_of_ne_nil (natDigits_ne_nil n)
  exact ⟨d, ds, hds, natDigits_all_digits n d (by rw [hds]; simp)⟩

lemma parseCanonInt?_cons_neg (cs : List Char) :
    parseCanonInt? ('-' :: cs) =
      if canonNat cs && decide (digitsVal cs ≠ 0) then some (-(digitsVal cs : ℤ))
      else none := by
  simp [parseCanonInt?]

lemma parseCanonInt?_cons {c : Char} (cs : List Char) (hc : c ≠ '-') :
    parseCanonInt? (c :: cs) =
      if canonNat (c :: cs) then some ((digitsVal (c :: cs) : ℤ)) else none := by
  simp [parseCanonInt?, hc]

lemma parseCanonInt?_intDigits (i : ℤ) : parseCanonInt? (intDigits i) = some i := by
  by_cases hi : i < 0
  · rw [intDigits, if_pos hi, parseCanonInt?_cons_neg]
    have hcond : (canonNat (natDigits i.natAbs) &&
        decide (digitsVal (natDigits i.natAbs) ≠ 0)) = true := by
      rw [canonNat_natDigits, digitsVal_natDigits]
      simp only [Bool.true_and, decide_eq_true_eq]
      omega
    rw [if_pos hcond, digitsVal_natDigits]
    congr 1
    omega
  · rw [intDigits, if_neg hi]
    obtain ⟨d, ds, hds, hd⟩ := natDigits_cons i.natAbs
    have h1 : canonNat (d :: ds) = true := hds ▸ canonNat_natDigits i.natAbs
    have h2 : digitsVal (d :: ds) = i.natAbs := hds ▸ digitsVal_natDigits i.natAbs
    rw [hds, parseCanonInt?_cons ds (isDigitC_ne hd).2.2.2.1, if_pos h1, h2]
    congr 1
    omega

lemma parseCanonInt?_eq_some {l : List Char} {i : ℤ}
    (h : parseCanonInt? l = some i) : intDigits i = l := by
  cases l with
  | nil => simp [parseCanonInt?] at h
  | cons c cs =>
    by_cases hc : c = '-'
    · subst hc
      rw [parseCanonInt?_cons_neg] at h
      by_cases hcond : (canonNat cs && decide (digitsVal cs ≠ 0)) = true
      · rw [if_pos hcond] at h
        rw [Bool.and_eq_true, decide_eq_true_eq] at hcond
        obtain ⟨hcanon, hnz⟩ := hcond
        injection h with h3
        have hneg : i < 0 := by omega
        rw [intDigits, if_pos hneg]
        have habsn : i.natAbs = digitsVal cs := by omega
        rw [habsn, natDigits_digitsVal cs hcanon]
      · rw [if_neg hcond] at h
        exact absurd h (by simp)
    · rw [parseCanonInt?_cons cs hc] at h
      by_cases hcanon : canonNat (c :: cs) = true
      · rw [if_pos hcanon] at h
        injection h with h3
        have hnn : ¬ i < 0 := by omega
        rw [intDigits, if_neg hnn]
        have habs : i.natAbs = digitsVal (c :: cs) := by omega
        rw [habs, natDigits_digitsVal _ hcanon]
      · rw [if_neg hcanon] at h
        exact absurd h (by simp)

/-! ### Splitting and float parsing lemmas -/

lemma splitExp_no_e {l : List Char} (h : ∀ c ∈ l, c ≠ 'e' ∧ c ≠ 'E') :
    splitExp l = (l, none) := by
  induction l with
  | nil => rfl
  | cons c cs ih =>
    have hc := h c (by simp)
    simp only [splitExp, if_neg (by tauto : ¬ (c = 'e' ∨ c = 'E'))]
    rw [ih (fun x hx => h x (by simp [hx]))]

lemma splitDot_append {l₁ l₂ : List Char} (h : ∀ c ∈ l₁, c ≠ '.') :
    splitDot (l₁ ++ '.' :: l₂) = (l₁, some l₂) := by
  induction l₁ with
  | nil => simp [splitDot]
  | cons c cs ih =>
    have hc := h c (by simp)
    simp only [List.cons_append, splitDot, if_neg hc, List.append_eq]
    rw [ih (fun x hx => h x (by simp [hx]))]

lemma qOfMantExp_eq (m e : ℤ) : qOfMantExp m e = (m : ℚ) * (10 : ℚ) ^ e := by
  unfold qOfMantExp
  by_cases he : 0 ≤ e
  · rw [if_pos he, Rat.divInt_eq_div]
    push_cast
    rw [div_one]
    congr 1
    rw [← zpow_natCast, Int.toNat_of_nonneg he]
  · rw [if_neg he, Rat.divInt_eq_div]
    push_cast
    rw [← zpow_natCast, Int.toNat_of_nonneg (by omega : (0:ℤ) ≤ -e),
      div_eq_mul_inv, ← zpow_neg, neg_neg]

lemma formatDecPos_chars {n k : ℕ} :
    ∀ c ∈ formatDecPos n k, isDigitC c = true ∨ c = '.' := by
  intro c hc
  unfold formatDecPos at hc
  rcases List.mem_append.mp hc with h | h
  · exact Or.inl (natDigits_all_digits _ c h)
  · rcases List.mem_cons.mp h with rfl | h
    · exact Or.inr rfl
    · exact Or.inl (padZeros_all_digits (natDigits_all_digits _) c h)

lemma parseUF_formatDecPos (n : ℕ) {k : ℕ} (hk : 1 ≤ k) :
    parseUF (formatDecPos n k) = some (qOfMantExp (n : ℤ) (-(k : ℤ))) := by
  have hmod : n % 10 ^ k < 10 ^ k := Nat.mod_lt _ (pow_pos (by norm_num) k)
  have hflen : (padZeros k (natDigits (n % 10 ^ k))).length = k :=
    padZeros_length (natDigits_length_le hmod hk)
  have hfne : padZeros k (natDigits (n % 10 ^ k)) ≠ [] := padZeros_ne_nil hk
  have hnoe : splitExp (formatDecPos n k) = (formatDecPos n k, none) := by
    apply splitExp_no_e
    intro c hc
    rcases formatDecPos_chars c hc with h | rfl
    · exact ⟨(isDigitC_ne h).2.1, (isDigitC_ne h).2.2.1⟩
    · exact ⟨by decide, by decide⟩
  have hdot : splitDot (formatDecPos n k) =
      (natDigits (n / 10 ^ k), some (padZeros k (natDigits (n % 10 ^ k)))) := by
    unfold formatDecPos
    exact splitDot_append
      (fun c hc => (isDigitC_ne (natDigits_all_digits _ c hc)).1)
  have hpf : parseNat? (padZeros k (natDigits (n % 10 ^ k))) = some (n % 10 ^ k) := by
    rw [parseNat?_eq_some hfne (padZeros_all_digits (natDigits_all_digits _)),
      digitsVal_padZeros, digitsVal_natDigits]
  have hfieF : (padZeros k (natDigits (n % 10 ^ k))).isEmpty = false :=
    List.isEmpty_eq_false.mpr hfne
  have hmant : parseMant (formatDecPos n k) = some ((n : ℤ), k) := by
    simp only [parseMant, hdot, hfieF, Bool.false_eq_true, if_false,
      parseNat?_natDigits, hpf, hflen]
    congr 2
    · congr 1
      rw [Nat.div_add_mod' n (10 ^ k)]
  simp only [parseUF, hnoe, hmant]
  congr 2
  omega

lemma parseFloat?_formatDecPos {n k : ℕ} (hk : 1 ≤ k) :
    parseFloat? (formatDecPos n k) = some (qOfMantExp (n : ℤ) (-(k : ℤ))) := by
  obtain ⟨d, ds, hds, hd⟩ := natDigits_cons (n / 10 ^ k)
  have hcons : formatDecPos n k =
      d :: (ds ++ '.' :: padZeros k (natDigits (n % 10 ^ k))) := by
    unfold formatDecPos
    rw [hds, List.cons_append]
  rw [hcons]
  simp only [parseFloat?, if_neg (isDigitC_ne hd).2.2.2.1,
    if_neg (isDigitC_ne hd).2.2.2.2]
  rw [← hcons]
  exact parseUF_formatDecPos n hk

lemma formatDec_eq (q : ℚ) :
    formatDec q =
      if q.num < 0 then
        '-' :: formatDecPos
          (q.num.natAbs * (10 ^ (max (decExp q.den) 1) / q.den))
          (max (decExp q.den) 1)
      else
        formatDecPos
          (q.num.natAbs * (10 ^ (max (decExp q.den) 1) / q.den))
          (max (decExp q.den) 1) := rfl

lemma parseFloat?_formatDec {q : ℚ} (hq : IsDecimal q) :
    parseFloat? (formatDec q) = some q := by
  rw [formatDec_eq]
  set k := max (decExp q.den) 1 with hk_def
  have hk : 1 ≤ k := le_max_right _ _
  have hden_pos : 0 < q.den := q.pos
  have hdvd : q.den ∣ 10 ^ k := dvd_trans hq (pow_dvd_pow 10 (le_max_left _ _))
  obtain ⟨c, hc⟩ := hdvd
  have hc0 : c ≠ 0 := by
    intro h
    rw [h, mul_zero] at hc
    exact absurd hc (pow_ne_zero k (by norm_num))
  have hquot : 10 ^ k / q.den = c := by
    rw [hc]
    exact Nat.mul_div_cancel_left c hden_pos
  have hcQ : ((10 : ℚ)) ^ (k : ℕ) = (q.den : ℚ) * (c : ℚ) := by
    have h10 := congrArg (fun x : ℕ => (x : ℚ)) hc
    push_cast at h10
    simpa using h10
  have hdenQ : (q.den : ℚ) ≠ 0 := Nat.cast_ne_zero.mpr (by omega)
  have hcQ0 : (c : ℚ) ≠ 0 := Nat.cast_ne_zero.mpr hc0
  have key : qOfMantExp ((q.num.natAbs * c : ℕ) : ℤ) (-(k : ℤ)) =
      (q.num.natAbs : ℚ) / (q.den : ℚ) := by
    rw [qOfMantExp_eq, zpow_neg, zpow_natCast, hcQ, Int.cast_natCast,
      Nat.cast_mul, mul_inv, div_eq_mul_inv, mul_assoc]
    congr 1
    rw [mul_comm ((q.den : ℚ))⁻¹ ((c : ℚ))⁻¹, ← mul_assoc,
      mul_inv_cancel₀ hcQ0, one_mul]
  rw [hquot]
  by_cases hneg : q.num < 0
  · rw [if_pos hneg]
    have hstep : parseFloat? ('-' :: formatDecPos (q.num.natAbs * c) k) =
        (parseUF (formatDecPos (q.num.natAbs * c) k)).map (fun x => -x) := by
      simp [parseFloat?]
    rw [hstep, parseUF_formatDecPos _ hk, Option.map_some']
    congr 1
    rw [key]
    have habs : (q.num.natAbs : ℚ) = -(q.num : ℚ) := by
      rw [← @Int.cast_natCast ℚ _ q.num.natAbs, ← Int.cast_neg]
      congr 1
      omega
    rw [habs, neg_div, neg_neg, Rat.num_div_den]
  · rw [if_neg hneg, parseFloat?_formatDecPos hk, key]
    congr 1
    have habs : (q.num.natAbs : ℚ) = (q.num : ℚ) := by
      rw [← @Int.cast_natCast ℚ _ q.num.natAbs]
      congr 1
      omega
    rw [habs, Rat.num_div_den]

/-! ### Every parsed float is decimal-representable -/

lemma exists_small_exp : ∀ d m : ℕ, d ∣ 10 ^ m → ∃ k, k ≤ d ∧ d ∣ 10 ^ k := by
  intro d
  induction d using Nat.strong_induction_on with
  | _ d ih =>
    intro m hdvd
    have hd0 : d ≠ 0 := by
      intro h
      subst h
      rw [zero_dvd_iff] at hdvd
      exact absurd hdvd (pow_ne_zero m (by norm_num))
    by_cases h2 : 2 ∣ d
    · obtain ⟨d', hd'⟩ := h2
      have hd'lt : d' < d := by omega
      have hd'dvd : d' ∣ 10 ^ m := dvd_trans ⟨2, by omega⟩ hdvd
      obtain ⟨k', hk'le, t, ht⟩ := ih d' hd'lt m hd'dvd
      exact ⟨k' + 1, by omega, t * 5, by rw [pow_succ, hd', ht]; ring⟩
    · by_cases h5 : 5 ∣ d
      · obtain ⟨d', hd'⟩ := h5
        have hd'lt : d' < d := by omega
        have hd'dvd : d' ∣ 10 ^ m := dvd_trans ⟨5, by omega⟩ hdvd
        obtain ⟨k', hk'le, t, ht⟩ := ih d' hd'lt m hd'dvd
        exact ⟨k' + 1, by omega, t * 2, by rw [pow_succ, hd', ht]; ring⟩
      · have hcop : Nat.Coprime d 10 := by
          have hg : Nat.gcd d 10 ∣ 10 := Nat.gcd_dvd_right d 10
          have hgd : Nat.gcd d 10 ∣ d := Nat.gcd_dvd_left d 10
          have hgle : Nat.gcd d 10 ≤ 10 := Nat.le_of_dvd (by norm_num) hg
          set g := Nat.gcd d 10 with hg_def
          interval_cases g
          · exact absurd (Nat.eq_zero_of_gcd_eq_zero_left hg_def.symm) hd0
          · exact hg_def.symm
          · exact absurd hgd h2
          · exact absurd hg (by decide)
          · exact absurd hg (by decide)
          · exact absurd hgd h5
          · exact absurd hg (by decide)
          · exact absurd hg (by decide)
          · exact absurd hg (by decide)
          · exact absurd hg (by decide)
          · exact absurd (dvd_trans ⟨5, rfl⟩ hgd) h2
        have hd1 : d = 1 :=
          Nat.Coprime.eq_one_of_dvd (Nat.Coprime.pow_right m hcop) hdvd
        exact ⟨0, by omega, by simp [hd1]⟩

lemma findExpAux_dvd (d : ℕ) :
    ∀ fuel start, (∃ k0, start ≤ k0 ∧ k0 < start + fuel ∧ d ∣ 10 ^ k0) →
      d ∣ 10 ^ findExpAux d fuel start := by
  intro fuel
  induction fuel with
  | zero =>
    intro start h
    obtain ⟨k0, h1, h2, -⟩ := h
    omega
  | succ f ih =>
    intro start h
    by_cases hs : d ∣ 10 ^ start
    · simp only [findExpAux, if_pos hs]
      exact hs
    · simp only [findExpAux, if_neg hs]
      apply ih
      obtain ⟨k0, h1, h2, h3⟩ := h
      have hne : k0 ≠ start := fun he => hs (he ▸ h3)
      exact ⟨k0, by omega, by omega, h3⟩

lemma dvd_ten_pow_decExp {d m : ℕ} (h : d ∣ 10 ^ m) : d ∣ 10 ^ decExp d := by
  obtain ⟨k0, hk0le, hk0⟩ := exists_small_exp d m h
  unfold decExp
  exact findExpAux_dvd d (d + 1) 0 ⟨k0, by omega, by omega, hk0⟩

lemma isDecimal_qOfMantExp (m e : ℤ) : IsDecimal (qOfMantExp m e) := by
  unfold qOfMantExp
  by_cases he : 0 ≤ e
  · rw [if_pos he]
    have hd := Rat.den_dvd (m * (10 : ℤ) ^ e.toNat) 1
    have hden1 : (Rat.divInt (m * (10 : ℤ) ^ e.toNat) 1).den ∣ 1 := by
      exact_mod_cast hd
    unfold IsDecimal
    rw [Nat.dvd_one.mp hden1]
    exact one_dvd _
  · rw [if_neg he]
    have hd := Rat.den_dvd m ((10 : ℤ) ^ (-e).toNat)
    have hdn : (Rat.divInt m ((10 : ℤ) ^ (-e).toNat)).den ∣ 10 ^ (-e).toNat := by
      have h2 : ((Rat.divInt m ((10 : ℤ) ^ (-e).toNat)).den : ℤ) ∣
          ((10 ^ (-e).toNat : ℕ) : ℤ) := by
        push_cast
        exact hd
      exact_mod_cast h2
    exact dvd_ten_pow_decExp hdn

lemma isDecimal_neg {q : ℚ} (h : IsDecimal q) : IsDecimal (-q) := by
  unfold IsDecimal at h ⊢
  rw [Rat.neg_den]
  exact h

lemma parseUF_isDecimal {l : List Char} {q : ℚ} (h : parseUF l = some q) :
    IsDecimal q := by
  simp only [parseUF] at h
  split at h
  · rename_i m s e hms hex
    injection h with h1
    rw [← h1]
    exact isDecimal_qOfMantExp _ _
  · exact absurd h (by simp)

lemma parseFloat?_isDecimal {l : List Char} {q : ℚ} (h : parseFloat? l = some q) :
    IsDecimal q := by
  cases l with
  | nil => simp [parseFloat?] at h
  | cons c cs =>
    simp only [parseFloat?] at h
    split_ifs at h with h1 h2
    · rcases Option.map_eq_some'.mp h with ⟨x, hx, hneg⟩
      rw [← hneg]
      exact isDecimal_neg (parseUF_isDecimal hx)
    · exact parseUF_isDecimal h
    · exact parseUF_isDecimal h

/-! ### Codec- and command-level helper lemmas -/

lemma float_decode_eq (mn mx : Option ℚ) (t : String) :
    Codec.decode (.Float mn mx) t =
      match parseFloat? t.data with
      | some q => .ok (.num q)
      | none => .error .parseErr := rfl

lemma float_encode_eq (mn mx : Option ℚ) (q : ℚ) :
    Codec.encode (.Float mn mx) (.num q) =
      if inBoundsQ mn mx q then .ok (String.mk (formatDec q))
      else .error .rangeErr := rfl

lemma int_decode_eq (mn mx : Option ℤ) (t : String) :
    Codec.decode (.Integer mn mx) t =
      match parseCanonInt? t.data with
      | some i => .ok (.int i)
      | none => .error .parseErr := rfl

lemma int_encode_eq (mn mx : Option ℤ) (i : ℤ) :
    Codec.encode (.Integer mn mx) (.int i) =
      if inBoundsZ mn mx i then .ok (String.mk (intDigits i))
      else .error .rangeErr := rfl

lemma string_mk_data (s : String) : String.mk s.data = s := rfl

lemma float_codec_roundtrip {mn mx : Option ℚ} {q : ℚ} (hdec : IsDecimal q)
    (hb : inBoundsQ mn mx q = true) :
    Codec.encode (.Float mn mx) (.num q) = .ok (String.mk (formatDec q)) ∧
    Codec.decode (.Float mn mx) (String.mk (formatDec q)) = .ok (.num q) := by
  refine ⟨by rw [float_encode_eq, if_pos hb], ?_⟩
  rw [float_decode_eq]
  have hdata : (String.mk (formatDec q)).data = formatDec q := rfl
  rw [hdata, parseFloat?_formatDec hdec]

lemma float_decode_inv {mn mx : Option ℚ} {t : String} {q : ℚ}
    (h : Codec.decode (.Float mn mx) t = .ok (.num q)) :
    parseFloat? t.data = some q := by
  rw [float_decode_eq] at h
  rcases hp : parseFloat? t.data with - | x
  · rw [hp] at h
    exact absurd h (by simp)
  · rw [hp] at h
    injection h with h1
    injection h1 with h2
    rw [h2]

lemma int_codec_roundtrip {mn mx : Option ℤ} {i : ℤ}
    (hb : inBoundsZ mn mx i = true) :
    Codec.encode (.Integer mn mx) (.int i) = .ok (String.mk (intDigits i)) ∧
    Codec.decode (.Integer mn mx) (String.mk (intDigits i)) = .ok (.int i) := by
  refine ⟨by rw [int_encode_eq, if_pos hb], ?_⟩
  rw [int_decode_eq]
  have hdata : (String.mk (intDigits i)).data = intDigits i := rfl
  rw [hdata, parseCanonInt?_intDigits]

lemma int_decode_inv {mn mx : Option ℤ} {t : String} {i : ℤ}
    (h : Codec.decode (.Integer mn mx) t = .ok (.int i)) :
    String.mk (intDigits i) = t := by
  rw [int_decode_eq] at h
  rcases hp : parseCanonInt? t.data with - | x
  · rw [hp] at h
    exact absurd h (by simp)
  · rw [hp] at h
    injection h with h1
    injection h1 with h2
    subst h2
    rw [parseCanonInt?_eq_some hp, string_mk_data]

lemma boolean_decode_inv {t : String} {b : Bool}
    (h : Codec.decode .Boolean t = .ok (.bool b)) :
    Codec.encode .Boolean (.bool b) = .ok t := by
  by_cases h1 : t = "1"
  · subst h1
    have hb : b = true := by
      have : Codec.decode .Boolean "1" = .ok (.bool true) := by decide
      rw [this] at h
      injection h with h2
      injection h2 with h3
      exact h3.symm
    rw [hb]
    decide
  · by_cases h0 : t = "0"
    · subst h0
      have hb : b = false := by
        have : Codec.decode .Boolean "0" = .ok (.bool false) := by decide
        rw [this] at h
        injection h with h2
        injection h2 with h3
        exact h3.symm
      rw [hb]
      decide
    · exfalso
      have : Codec.decode .Boolean t = .error .parseErr := by
        show (if t = "1" then Except.ok (Val.bool true)
          else if t = "0" then Except.ok (Val.bool false)
          else Except.error Err.parseErr) = Except.error Err.parseErr
        rw [if_neg h1, if_neg h0]
      rw [this] at h
      exact absurd h (by simp)

lemma command_read_some {cmd : Command} {qp : String}
    (h : cmd.queryPhrase = some qp) (conn : Connection) :
    cmd.read conn = (cmd.codec.decode (conn.ask qp), [.ask qp (conn.ask qp)]) := by
  unfold Command.read
  rw [h]

lemma command_read_none {cmd : Command} (h : cmd.queryPhrase = none)
    (conn : Connection) : cmd.read conn = (.error .unsupported, []) := by
  unfold Command.read
  rw [h]

lemma command_write_none {cmd : Command} (h : cmd.writePhrase = none)
    (v : Val) : cmd.write v = (.error .unsupported, []) := by
  unfold Command.write
  rw [h]

lemma command_write_err {cmd : Command} {v : Val} {e : Err}
    (h : (cmd.write v).1 = .error e) : (cmd.write v).2 = [] := by
  obtain ⟨qp, wp, codec⟩ := cmd
  cases wp with
  | none => rfl
  | some w =>
    simp only [Command.write] at h ⊢
    rcases he : codec.encode v with err | arg
    · rfl
    · rw [he] at h
      exact absurd h (by simp)

lemma command_write_ok {cmd : Command} {v : Val}
    (h : (cmd.write v).1 = .ok ()) :
    ∃ wp arg, cmd.writePhrase = some wp ∧ cmd.codec.encode v = .ok arg ∧
      (cmd.write v).2 = [.write (wp ++ " " ++ arg)] := by
  obtain ⟨qp, wp, codec⟩ := cmd
  cases wp with
  | none => exact absurd h (by simp [Command.write])
  | some w =>
    simp only [Command.write] at h ⊢
    rcases he : codec.encode v with err | arg
    · rw [he] at h
      exact absurd h (by simp)
    · exact ⟨w, arg, rfl, rfl, rfl⟩

lemma command_read_ok {cmd : Command} {conn : Connection} {v : Val}
    (h : (cmd.read conn).1 = .ok v) :
    ∃ qp, cmd.queryPhrase = some qp ∧
      (cmd.read conn).2 = [.ask qp (conn.ask qp)] := by
  obtain ⟨qp, wp, codec⟩ := cmd
  cases qp with
  | none => exact absurd h (by simp [Command.read])
  | some q =>
    simp only [Command.read]
    exact ⟨q, rfl, rfl⟩

/-! ### Claim theorems -/

/-- C1: for every Value Type codec used by the driver (Boolean, bounded
Float, bounded Integer, Mapping, Set) and every input accepted by that
codec, decode after encode gives the value back, and encode after decode
gives the accepted text back — textually for Boolean, Integer, Mapping and
Set, and up to formatting normalization (equal decoded values) for floats;
in particular this holds for the `Float(min=-100e6, max=100e6)` codec of
`output.gain` and the Mapping codec of `trigger.source`. -/
theorem C1_codec_roundtrips :
    (Output.gain.codec = .Float (some (-100000000)) (some 100000000) ∧
     Trigger.source.codec = .Mapping Trigger.sourcePairs) ∧
    (∀ b : Bool, ∃ t, Codec.encode .Boolean (.bool b) = .ok t ∧
       Codec.decode .Boolean t = .ok (.bool b)) ∧
    (∀ (t : String) (b : Bool), Codec.decode .Boolean t = .ok (.bool b) →
       Codec.encode .Boolean (.bool b) = .ok t) ∧
    (∀ (mn mx : Option ℚ) (q : ℚ), IsDecimal q → inBoundsQ mn mx q = true →
       ∃ t, Codec.encode (.Float mn mx) (.num q) = .ok t ∧
         Codec.decode (.Float mn mx) t = .ok (.num q)) ∧
    (∀ (mn mx : Option ℚ) (t : String) (q : ℚ),
       Codec.decode (.Float mn mx) t = .ok (.num q) → inBoundsQ mn mx q = true →
       ∃ u, Codec.encode (.Float mn mx) (.num q) = .ok u ∧
         Codec.decode (.Float mn mx) u = Codec.decode (.Float mn mx) t) ∧
    (∀ (mn mx : Option ℤ) (i : ℤ), inBoundsZ mn mx i = true →
       ∃ t, Codec.encode (.Integer mn mx) (.int i) = .ok t ∧
         Codec.decode (.Integer mn mx) t = .ok (.int i)) ∧
    (∀ (mn mx : Option ℤ) (t : String) (i : ℤ),
       Codec.decode (.Integer mn mx) t = .ok (.int i) → inBoundsZ mn mx i = true →
       Codec.encode (.Integer mn mx) (.int i) = .ok t) ∧
    (∀ p ∈ Trigger.sourcePairs,
       Codec.encode Trigger.source.codec (.str p.1) = .ok p.2 ∧
       Codec.decode Trigger.source.codec p.2 = .ok (.str p.1)) ∧
    (∀ p ∈ [("voltage", "\"VOLT:DC\""), ("temperature", "\"TEMP\"")],
       Codec.encode Sense.function.codec (.str p.1) = .ok p.2 ∧
       Codec.decode Sense.function.codec p.2 = .ok (.str p.1)) ∧
    (∀ s ∈ (["C", "F", "K"] : List String),
       Codec.encode Unit.temperature.codec (.str s) = .ok s ∧
       Codec.decode Unit.temperature.codec s = .ok (.str s)) := by
  refine ⟨⟨rfl, rfl⟩, ?_, ?_, ?_, ?_, ?_, ?_, by decide, by decide, by decide⟩
  · intro b
    cases b
    · exact ⟨"0", by decide, by decide⟩
    · exact ⟨"1", by decide, by decide⟩
  · intro t b h
    exact boolean_decode_inv h
  · intro mn mx q hdec hb
    exact ⟨String.mk (formatDec q), float_codec_roundtrip hdec hb⟩
  · intro mn mx t q h hb
    have hp : parseFloat? t.data = some q := float_decode_inv h
    have hdec : IsDecimal q := parseFloat?_isDecimal hp
    obtain ⟨henc, hdecode⟩ := @float_codec_roundtrip mn mx q hdec hb
    exact ⟨String.mk (formatDec q), henc, by rw [hdecode, h]⟩
  · intro mn mx i hb
    exact ⟨String.mk (intDigits i), int_codec_roundtrip hb⟩
  · intro mn mx t i h hb
    rw [(@int_codec_roundtrip mn mx i hb).1, int_decode_inv h]

/-- C1 witness: the round trips evaluated at concrete points — the
`output.gain` float codec at 150 (with wire text `1.5E+02`), the
`sample_count` integer codec at 7 and at the text `42`, the wire token
`1` for Boolean, the pair timer/TIM of `trigger.source`, and the symbol
`C` of `unit.temperature`. -/
theorem C1_codec_roundtrips_witness :
    (∃ t, Codec.encode (.Float (some (-100000000)) (some 100000000)) (.num 150) = .ok t ∧
       Codec.decode (.Float (some (-100000000)) (some 100000000)) t = .ok (.num 150)) ∧
    (∃ u, Codec.encode (.Float (some (-100000000)) (some 100000000)) (.num 150) = .ok u ∧
       Codec.decode (.Float (some (-100000000)) (some 100000000)) u =
         Codec.decode (.Float (some (-100000000)) (some 100000000)) "1.5E+02") ∧
    (∃ t, Codec.encode (.Integer (some 1) (some 1024)) (.int 7) = .ok t ∧
       Codec.decode (.Integer (some 1) (some 1024)) t = .ok (.int 7)) ∧
    Codec.encode (.Integer (some 1) (some 1024)) (.int 42) = .ok "42" ∧
    Codec.encode .Boolean (.bool true) = .ok "1" ∧
    (Codec.encode Trigger.source.codec (.str "timer") = .ok "TIM" ∧
     Codec.decode Trigger.source.codec "TIM" = .ok (.str "timer")) ∧
    (Codec.encode Unit.temperature.codec (.str "C") = .ok "C" ∧
     Codec.decode Unit.temperature.codec "C" = .ok (.str "C")) := by
  obtain ⟨-, -, hbinv, hffwd, hfback, hifwd, hiback, hmap, -, hset⟩ :=
    C1_codec_roundtrips
  exact ⟨hffwd _ _ 150 (by decide) (by decide),
    hfback _ _ "1.5E+02" 150 (by decide) (by decide),
    hifwd _ _ 7 (by decide),
    hiback (some 1) (some 1024) "42" 42 (by decide) (by decide),
    hbinv "1" true (by decide),
    hmap ("timer", "TIM") (by decide),
    hset "C" (by decide)⟩

/-- C2: reading `output.gain` sends exactly the query phrase `OUTP:GAIN?`
via `ask`, and when the response is `"1.5E+02"` the read returns 150. -/
theorem C2_output_gain_read :
    (∀ conn : Connection, (Output.gain.read conn).2 =
      [Event.ask "OUTP:GAIN?" (conn.ask "OUTP:GAIN?")]) ∧
    (∀ conn : Connection, conn.ask "OUTP:GAIN?" = "1.5E+02" →
      Output.gain.read conn = (.ok (.num 150), [.ask "OUTP:GAIN?" "1.5E+02"])) := by
  constructor
  · intro conn
    rw [command_read_some rfl conn]
  · intro conn h
    rw [command_read_some rfl conn, h]
    decide

/-- C2 witness: the scenario on a connection that answers `1.5E+02`. -/
theorem C2_output_gain_read_witness :
    Output.gain.read ⟨fun _ => "1.5E+02"⟩ =
      (.ok (.num 150), [.ask "OUTP:GAIN?" "1.5E+02"]) :=
  C2_output_gain_read.2 ⟨fun _ => "1.5E+02"⟩ rfl

/-- C3: writing the symbol timer to `trigger.source` sends exactly
`:TRIG:SOUR TIM` and succeeds, while writing the undeclared symbol
network fails with UnknownSymbolError and sends nothing. -/
theorem C3_trigger_source_write :
    Trigger.source.write (.str "timer") = (.ok (), [.write ":TRIG:SOUR TIM"]) ∧
    Trigger.source.write (.str "network") = (.error .unknownSymbol, []) := by
  decide

/-- C4: writing 2000 to `sample_count` (bounds 1 to 1024) fails with
RangeError and issues no command; in general a failed write sends nothing,
so an exchange fully succeeds or fully fails. -/
theorem C4_sample_count_atomic :
    K2182.sample_count.write (.int 2000) = (.error .rangeErr, []) ∧
    (∀ (cmd : Command) (v : Val) (e : Err),
      (cmd.write v).1 = .error e → (cmd.write v).2 = []) :=
  ⟨by decide, fun _ _ _ h => command_write_err h⟩

/-- C4 witness: the atomicity clause applied to the failing
`sample_count` write itself. -/
theorem C4_sample_count_atomic_witness :
    (K2182.sample_count.write (.int 2000)).2 = [] :=
  C4_sample_count_atomic.2 K2182.sample_count (.int 2000) .rangeErr (by decide)

/-- C5: the `read` action sends exactly `:READ?` via `ask` and returns the
reply parsed as a float; `fetch` does the same with `:FETC?`. -/
theorem C5_read_fetch :
    (∀ conn : Connection, K2182.read conn =
      (pyFloat (conn.ask ":READ?"), [.ask ":READ?" (conn.ask ":READ?")])) ∧
    (∀ conn : Connection, K2182.fetch conn =
      (pyFloat (conn.ask ":FETC?"), [.ask ":FETC?" (conn.ask ":FETC?")])) ∧
    (∀ (conn : Connection) (q : ℚ),
      parseFloat? (conn.ask ":READ?").data = some q →
      (K2182.read conn).1 = .ok q) ∧
    (∀ (conn : Connection) (q : ℚ),
      parseFloat? (conn.ask ":FETC?").data = some q →
      (K2182.fetch conn).1 = .ok q) := by
  refine ⟨fun conn => rfl, fun conn => rfl, ?_, ?_⟩
  · intro conn q h
    show pyFloat (conn.ask ":READ?") = .ok q
    unfold pyFloat
    rw [h]
  · intro conn q h
    show pyFloat (conn.ask ":FETC?") = .ok q
    unfold pyFloat
    rw [h]

/-- C5 witness: a reply of `-1.302E-03` to `:READ?` parses to the
rational -1302/1000000. -/
theorem C5_read_fetch_witness :
    (K2182.read ⟨fun _ => "-1.302E-03"⟩).1 = .ok (Rat.divInt (-1302) 1000000) :=
  C5_read_fetch.2.2.1 ⟨fun _ => "-1.302E-03"⟩ (Rat.divInt (-1302) 1000000)
    (by decide)

/-- C6: a Command Descriptor with no write phrase fails with
UnsupportedOperationError on write, and one with no query phrase fails the
same way on read; in particular the query-only `temperature` and `voltage`
facade attributes reject writes. -/
theorem C6_unsupported_operations :
    (∀ (cmd : Command) (v : Val), cmd.writePhrase = none →
      cmd.write v = (.error .unsupported, [])) ∧
    (∀ (cmd : Command) (conn : Connection), cmd.queryPhrase = none →
      cmd.read conn = (.error .unsupported, [])) ∧
    (∀ v, K2182.temperature.write v = (.error .unsupported, [])) ∧
    (∀ v, K2182.voltage.write v = (.error .unsupported, [])) :=
  ⟨fun _ v h => command_write_none h v,
   fun _ conn h => command_read_none h conn,
   fun v => command_write_none rfl v,
   fun v => command_write_none rfl v⟩

/-- C6 witness: `temperature.write` rejected at the value 0, and a
write-only descriptor rejecting a read. -/
theorem C6_unsupported_operations_witness :
    K2182.temperature.write (.num 0) = (.error .unsupported, []) ∧
    Command.read ⟨none, some ":CAL", .Boolean⟩ ⟨fun _ => ""⟩ =
      (.error .unsupported, []) :=
  ⟨C6_unsupported_operations.1 K2182.temperature (.num 0) rfl,
   C6_unsupported_operations.2.1 ⟨none, some ":CAL", .Boolean⟩ ⟨fun _ => ""⟩ rfl⟩

/-- C7: the `unit.temperature` codec is the Set with members C, F, K;
encode and decode are the identity on members and fail with
InvalidValueError on every other (case-sensitive) string. -/
theorem C7_unit_temperature_set :
    Unit.temperature.codec = .Set ["C", "F", "K"] ∧
    (∀ s : String, s ∈ (["C", "F", "K"] : List String) →
      Codec.encode Unit.temperature.codec (.str s) = .ok s ∧
      Codec.decode Unit.temperature.codec s = .ok (.str s)) ∧
    (∀ s : String, s ∉ (["C", "F", "K"] : List String) →
      Codec.encode Unit.temperature.codec (.str s) = .error .invalidValue ∧
      Codec.decode Unit.temperature.codec s = .error .invalidValue) := by
  refine ⟨rfl, ?_, ?_⟩
  · intro s hs
    constructor
    · show (if s ∈ (["C", "F", "K"] : List String) then Except.ok s
        else Except.error Err.invalidValue) = Except.ok s
      rw [if_pos hs]
    · show (if s ∈ (["C", "F", "K"] : List String) then Except.ok (Val.str s)
        else Except.error Err.invalidValue) = Except.ok (Val.str s)
      rw [if_pos hs]
  · intro s hs
    constructor
    · show (if s ∈ (["C", "F", "K"] : List String) then Except.ok s
        else Except.error Err.invalidValue) = Except.error Err.invalidValue
      rw [if_neg hs]
    · show (if s ∈ (["C", "F", "K"] : List String) then Except.ok (Val.str s)
        else Except.error Err.invalidValue) = Except.error Err.invalidValue
      rw [if_neg hs]

/-- C7 witness: identity at the member C, rejection at the non-member
lowercase c. -/
theorem C7_unit_temperature_set_witness :
    (Codec.encode Unit.temperature.codec (.str "C") = .ok "C" ∧
     Codec.decode Unit.temperature.codec "C" = .ok (.str "C")) ∧
    (Codec.encode Unit.temperature.codec (.str "c") = .error .invalidValue ∧
     Codec.decode Unit.temperature.codec "c" = .error .invalidValue) :=
  ⟨C7_unit_temperature_set.2.1 "C" (by decide),
   C7_unit_temperature_set.2.2 "c" (by decide)⟩

/-- C8: every successful attribute read or write performs exactly one
exchange on the injected connection — a single `ask` for a read, a single
bare `write` for a write — and the direct `fetch`/`read` actions likewise
perform exactly one `ask`. -/
theorem C8_one_round_trip :
    (∀ (cmd : Command) (conn : Connection) (v : Val),
      (cmd.read conn).1 = .ok v →
      ∃ qp, cmd.queryPhrase = some qp ∧
        (cmd.read conn).2 = [.ask qp (conn.ask qp)]) ∧
    (∀ (cmd : Command) (v : Val),
      (cmd.write v).1 = .ok () →
      ∃ wp arg, cmd.writePhrase = some wp ∧ cmd.codec.encode v = .ok arg ∧
        (cmd.write v).2 = [.write (wp ++ " " ++ arg)]) ∧
    (∀ conn : Connection, (K2182.fetch conn).2 =
      [.ask ":FETC?" (conn.ask ":FETC?")]) ∧
    (∀ conn : Connection, (K2182.read conn).2 =
      [.ask ":READ?" (conn.ask ":READ?")]) :=
  ⟨fun _ _ _ h => command_read_ok h,
   fun _ _ h => command_write_ok h,
   fun _ => rfl, fun _ => rfl⟩

/-- C8 witness: one ask for the successful `output.gain` read, one write
for the successful `trigger.source` write. -/
theorem C8_one_round_trip_witness :
    (∃ qp, Output.gain.queryPhrase = some qp ∧
      (Output.gain.read ⟨fun _ => "1.5E+02"⟩).2 =
        [.ask qp ((⟨fun _ => "1.5E+02"⟩ : Connection).ask qp)]) ∧
    (∃ wp arg, Trigger.source.writePhrase = some wp ∧
      Trigger.source.codec.encode (.str "timer") = .ok arg ∧
      (Trigger.source.write (.str "timer")).2 = [.write (wp ++ " " ++ arg)]) :=
  ⟨C8_one_round_trip.1 Output.gain ⟨fun _ => "1.5E+02"⟩ (.num 150) (by decide),
   C8_one_round_trip.2.1 Trigger.source (.str "timer") (by decide)⟩

/-- C9: the lifecycle actions are bare writes with no response — `abort`
writes exactly `:ABOR`, `Trigger.signal` writes exactly `:TRIG:SIGN`,
both return nothing, and neither performs an `ask`. -/
theorem C9_bare_writes :
    K2182.abort = ((), [Event.write ":ABOR"]) ∧
    Trigger.signal = ((), [Event.write ":TRIG:SIGN"]) ∧
    (K2182.abort.2.filter (fun ev => match ev with
      | .ask _ _ => true
      | .write _ => false)) = [] ∧
    (Trigger.signal.2.filter (fun ev => match ev with
      | .ask _ _ => true
      | .write _ => false)) = [] :=
  ⟨rfl, rfl, rfl, rfl⟩

/-- C10: `trigger.count` is declared `Float(min=0.)` with no upper bound;
encoding any non-negative value succeeds (9999 and beyond included,
despite the instrument's documented maximum) and any negative value fails
with RangeError. -/
theorem C10_trigger_count_unbounded :
    Trigger.count.codec = .Float (some 0) none ∧
    (∀ q : ℚ, 0 ≤ q →
      Codec.encode Trigger.count.codec (.num q) = .ok (String.mk (formatDec q))) ∧
    (∀ q : ℚ, q < 0 →
      Codec.encode Trigger.count.codec (.num q) = .error .rangeErr) := by
  refine ⟨rfl, ?_, ?_⟩
  · intro q hq
    rw [show Trigger.count.codec = Codec.Float (some 0) none from rfl,
      float_encode_eq, if_pos]
    simp [inBoundsQ, hq]
  · intro q hq
    rw [show Trigger.count.codec = Codec.Float (some 0) none from rfl,
      float_encode_eq, if_neg]
    simp only [inBoundsQ, Bool.and_eq_true, decide_eq_true_eq]
    intro h
    exact absurd h.1 (not_le.mpr hq)

/-- C10 witness: encoding 9999 succeeds with no RangeError, encoding -1
fails with RangeError. -/
theorem C10_trigger_count_unbounded_witness :
    Codec.encode Trigger.count.codec (.num 9999) = .ok (String.mk (formatDec 9999)) ∧
    Codec.encode Trigger.count.codec (.num (-1)) = .error .rangeErr :=
  ⟨C10_trigger_count_unbounded.2.1 9999 (by decide),
   C10_trigger_count_unbounded.2.2 (-1) (by decide)⟩
